import Mathlib

/-!
Verification of the mowndark backend note model: the permission engine,
note-identity resolution, note creation, access-history maintenance and the
markdown render/sanitize/describe pipeline, embedded shallowly from
`backend/models/note.py`, `backend/models/user.py` and
`backend/routes/notes.py`.
-/

namespace Mowndark

/-- Python truthiness of an optional string value: `None` and the empty
string are falsy, every other string is truthy (used by `if not user_id`
style guards in the source). -/
def truthy : Option String → Bool
  | none => false
  | some s => !(s == "")

/-- A note document as built by `Note.create` in `backend/models/note.py`.
The MongoDB-assigned primary key is `id`; timestamps are modelled as
naturals.  `permission` is an `Option` because the source reads it with
`note.get('permission', 'private')`. -/
structure Note where
  id : String
  shortid : String
  «alias» : Option String
  title : String
  content : String
  owner_id : Option String
  permission : Option String
  view_count : Nat
deriving Repr, DecidableEq

/-- The six permission levels declared at the top of `Note`. -/
def Note.permissionLevels : List String :=
  ["freely", "editable", "limited", "locked", "protected", "private"]

/-- Embedding of `Note.is_owner(note, user_id)`: `if not user_id or not
note: return False; return note.get('owner_id') == user_id`. -/
def Note.is_owner (note : Option Note) (user_id : Option String) : Bool :=
  if !(truthy user_id) || note.isNone then false
  else
    match note, user_id with
    | some n, some u => n.owner_id == some u
    | _, _ => false

/-- Embedding of `Note.can_view(note, user_id)` from
`backend/models/note.py` lines 184-205. -/
def Note.can_view (note : Option Note) (user_id : Option String) : Bool :=
  match note with
  | none => false
  | some n =>
    let permission := n.permission.getD "private"
    if permission == "private" then Note.is_owner note user_id
    else if permission == "limited" then Note.is_owner note user_id
    else if permission == "locked" then user_id.isSome
    else true

/-- Embedding of `Note.can_edit(note, user_id)` from
`backend/models/note.py` lines 207-227. -/
def Note.can_edit (note : Option Note) (user_id : Option String) : Bool :=
  match note with
  | none => false
  | some n =>
    let permission := n.permission.getD "private"
    if permission == "freely" then true
    else if permission == "editable" then user_id.isSome
    else if ["private", "locked", "protected", "limited"].contains permission then
      Note.is_owner note user_id
    else false

/-- The note store, abstracting the MongoDB `notes` collection:
`find_one` returns the first matching document. -/
abbrev Store := List Note

/-- Embedding of `Note.find_by_shortid`: `find_one({'shortid': shortid})`. -/
def Note.find_by_shortid (store : Store) (shortid : String) : Option Note :=
  List.find? (fun n => n.shortid == shortid) store

/-- Embedding of `Note.find_by_alias`: `find_one({'alias': alias})`. -/
def Note.find_by_alias (store : Store) (a : String) : Option Note :=
  List.find? (fun n => n.alias == some a) store

/-- Syntactic validity of a BSON ObjectId string: 24 hexadecimal
characters.  `ObjectId(note_id)` raises on anything else, and
`Note.find_by_id` catches that and returns `None`. -/
def isValidObjectId (s : String) : Bool :=
  s.length == 24 && s.toList.all (fun c => c.isDigit ||
    ('a' ≤ c && c ≤ 'f') || ('A' ≤ c && c ≤ 'F'))

/-- Embedding of `Note.find_by_id`: `try: find_one({'_id':
ObjectId(note_id)}) except: return None` — a malformed ObjectId folds
into a `none` result instead of raising. -/
def Note.find_by_id (store : Store) (note_id : String) : Option Note :=
  if isValidObjectId note_id then List.find? (fun n => n.id == note_id) store
  else none

/-- Embedding of `Note.find_by_id_or_shortid` (note.py lines 85-99):
shortid first, then alias, then MongoDB primary id. -/
def Note.find_by_id_or_shortid (store : Store) (note_id : String) : Option Note :=
  match Note.find_by_shortid store note_id with
  | some note => some note
  | none =>
    match Note.find_by_alias store note_id with
    | some note => some note
    | none => Note.find_by_id store note_id

/-- Embedding of the resolution performed by the published-view route
`get_published_note` (routes/notes.py lines 144-164): shortid, then
alias, and never the primary id. -/
def Note.resolve_published (store : Store) (reference : String) : Option Note :=
  match Note.find_by_shortid store reference with
  | some note => some note
  | none => Note.find_by_alias store reference

/-- Embedding of the pure document-construction part of `Note.create`
(note.py lines 35-62).  The randomly generated shortid and the id the
store assigns at insertion are passed in explicitly; the timestamp
fields play no part in any claim and are omitted. -/
def Note.create (new_id shortid : String) (owner_id : Option String)
    (title content permission : String) (a : Option String) : Note :=
  let content := if content == "" then
    "# " ++ title ++ "\n\nStart writing your markdown here..." else content
  { id := new_id
    shortid := shortid
    «alias» := a
    title := title
    content := content
    owner_id := owner_id
    permission := some (if truthy owner_id then permission else "freely")
    view_count := 0 }

/-- The permission string the `create_note` route passes to `Note.create`
(routes/notes.py line 44): `'private' if user_id else 'freely'`. -/
def route_create_permission (user_id : Option String) : String :=
  if truthy user_id then "private" else "freely"

/-- The note produced by a `POST /notes` request handled by `create_note`
(routes/notes.py lines 31-61) for an actor `user_id`. -/
def route_create_note (new_id shortid : String)
    (user_id : Option String) (title content : String) (a : Option String) : Note :=
  Note.create new_id shortid user_id title content
    (route_create_permission user_id) a

/-- The three actor identities the permission table distinguishes. -/
inductive ActorCase where
  | absent
  | nonOwner
  | owner
deriving DecidableEq, Repr

/-- The viewable column of the table in spec §4.1, written from the
spec's words, to be compared against `Note.can_view`. -/
def specView : String → ActorCase → Bool
  | "freely", _ => true
  | "editable", _ => true
  | "limited", .owner => true
  | "limited", _ => false
  | "locked", .absent => false
  | "locked", _ => true
  | "protected", _ => true
  | "private", .owner => true
  | "private", _ => false
  | _, _ => false

/-- The editable column of the table in spec §4.1, written from the
spec's words, to be compared against `Note.can_edit`. -/
def specEdit : String → ActorCase → Bool
  | "freely", _ => true
  | "editable", .absent => false
  | "editable", _ => true
  | "limited", .owner => true
  | "limited", _ => false
  | "locked", .owner => true
  | "locked", _ => false
  | "protected", .owner => true
  | "protected", _ => false
  | "private", .owner => true
  | "private", _ => false
  | _, _ => false

/-- A sample stored note used in concrete witnesses. -/
def sampleNote : Note :=
  { id := "507f1f77bcf86cd799439011"
    shortid := "abcdefghij"
    «alias» := some "my-note"
    title := "Untitled"
    content := "# Untitled"
    owner_id := some "alice"
    permission := some "private"
    view_count := 0 }

/-- The claim id `C1`.  For every stored note holding one of the six
permission levels and an owner, `can_view`/`can_edit` agree with the
(viewable, editable) table of spec §4.1 for the absent actor, any
present non-owner actor, and the owner. -/
theorem permission_table_correct (p : String) (hp : p ∈ Note.permissionLevels)
    (n : Note) (owner u : String)
    (hperm : n.permission = some p) (hown : n.owner_id = some owner)
    (howner : owner ≠ "") (hu : u ≠ owner) :
    (Note.can_view (some n) none = specView p .absent
      ∧ Note.can_edit (some n) none = specEdit p .absent)
    ∧ (Note.can_view (some n) (some u) = specView p .nonOwner
      ∧ Note.can_edit (some n) (some u) = specEdit p .nonOwner)
    ∧ (Note.can_view (some n) (some owner) = specView p .owner
      ∧ Note.can_edit (some n) (some owner) = specEdit p .owner) := by
  have hu' : ¬ (owner = u) := fun h => hu h.symm
  have hu2 : (owner == u) = false := beq_eq_false_iff_ne.mpr hu'
  fin_cases hp <;>
    simp_all [Note.can_view, Note.can_edit, Note.is_owner, truthy,
      specView, specEdit]

/-- Witness for `permission_table_correct` at the level `private`, owner
`alice`, non-owner `bob`. -/
theorem permission_table_correct_witness :
    (Note.can_view (some sampleNote) none = specView "private" .absent
      ∧ Note.can_edit (some sampleNote) none = specEdit "private" .absent)
    ∧ (Note.can_view (some sampleNote) (some "bob") = specView "private" .nonOwner
      ∧ Note.can_edit (some sampleNote) (some "bob") = specEdit "private" .nonOwner)
    ∧ (Note.can_view (some sampleNote) (some "alice") = specView "private" .owner
      ∧ Note.can_edit (some sampleNote) (some "alice") = specEdit "private" .owner) :=
  permission_table_correct "private" (by decide) sampleNote "alice" "bob"
    rfl rfl (by decide) (by decide)

/-- A second sample note, anonymous (no owner, no alias), whose primary
id is a well-formed ObjectId. -/
def anonNote : Note :=
  { id := "64b5f0a1c2d3e4f506172839"
    shortid := "zzzzzzzzzz"
    «alias» := none
    title := "Untitled"
    content := ""
    owner_id := none
    permission := some "freely"
    view_count := 0 }

/-- The claim id `C6`.  An absent note yields `false` for `can_view`,
`can_edit` and `is_owner` whatever the actor; `is_owner` is `false`
whenever the actor is absent, and `false` for every actor when the
note's `owner_id` is absent — in particular an anonymous actor is never
the owner of an anonymous note. -/
theorem absent_checks_false (u v : Option String) (m n : Note)
    (hanon : n.owner_id = none) :
    Note.can_view none u = false ∧ Note.can_edit none u = false
    ∧ Note.is_owner none u = false
    ∧ Note.is_owner (some m) none = false
    ∧ Note.is_owner (some n) v = false := by
  refine ⟨rfl, rfl, ?_, rfl, ?_⟩
  · cases u with
    | none => rfl
    | some s => simp [Note.is_owner]
  · cases v with
    | none => rfl
    | some s => simp [Note.is_owner, truthy, hanon]

/-- Witness for `absent_checks_false`: the anonymous actor and the
anonymous `anonNote`. -/
theorem absent_checks_false_witness :
    Note.can_view none none = false ∧ Note.can_edit none none = false
    ∧ Note.is_owner none none = false
    ∧ Note.is_owner (some sampleNote) none = false
    ∧ Note.is_owner (some anonNote) none = false :=
  absent_checks_false none none sampleNote anonNote rfl

/-- The claim id `C10`.  For a note whose permission string is none of
the six levels, `can_view` falls through to `true` for every actor while
`can_edit` falls through to `false` for every actor, the owner
included. -/
theorem unknown_permission_defaults (n : Note) (p : String) (u : Option String)
    (hperm : n.permission = some p) (hnot : p ∉ Note.permissionLevels) :
    Note.can_view (some n) u = true ∧ Note.can_edit (some n) u = false := by
  simp only [Note.permissionLevels, List.mem_cons, List.not_mem_nil, or_false,
    not_or] at hnot
  obtain ⟨h1, h2, h3, h4, h5, h6⟩ := hnot
  simp [Note.can_view, Note.can_edit, hperm, h1, h2, h3, h4, h5, h6]

/-- Witness for `unknown_permission_defaults` at the permission string
`banana`, checked for the owner actor. -/
theorem unknown_permission_defaults_witness :
    Note.can_view (some { sampleNote with permission := some "banana" }) (some "alice") = true
    ∧ Note.can_edit (some { sampleNote with permission := some "banana" }) (some "alice") = false :=
  unknown_permission_defaults { sampleNote with permission := some "banana" }
    "banana" (some "alice") rfl (by decide)

/-- The claim id `C2`.  `find_by_id_or_shortid` tries shortid, then
alias, then primary id, first match winning; a malformed primary-id
reference folds into `none` without raising; and when no strategy
matches anything in the store the result is `none`. -/
theorem resolver_precedence (store : Store) (r : String) :
    (∀ n, Note.find_by_shortid store r = some n →
      Note.find_by_id_or_shortid store r = some n)
    ∧ (Note.find_by_shortid store r = none →
      ∀ n, Note.find_by_alias store r = some n →
        Note.find_by_id_or_shortid store r = some n)
    ∧ (Note.find_by_shortid store r = none → Note.find_by_alias store r = none →
      Note.find_by_id_or_shortid store r = Note.find_by_id store r)
    ∧ (isValidObjectId r = false → Note.find_by_id store r = none)
    ∧ ((∀ n ∈ store, n.shortid ≠ r ∧ n.alias ≠ some r ∧ n.id ≠ r) →
      Note.find_by_id_or_shortid store r = none) := by
  refine ⟨?_, ?_, ?_, ?_, ?_⟩
  · intro n h
    simp [Note.find_by_id_or_shortid, h]
  · intro h n h2
    simp [Note.find_by_id_or_shortid, h, h2]
  · intro h h2
    simp [Note.find_by_id_or_shortid, h, h2]
  · intro h
    simp [Note.find_by_id, h]
  · intro h
    have hs : Note.find_by_shortid store r = none := by
      refine List.find?_eq_none.mpr ?_
      intro n hn
      simp [(h n hn).1]
    have ha : Note.find_by_alias store r = none := by
      refine List.find?_eq_none.mpr ?_
      intro n hn
      simp [(h n hn).2.1]
    have hi : Note.find_by_id store r = none := by
      unfold Note.find_by_id
      split
      · refine List.find?_eq_none.mpr ?_
        intro n hn
        simp [(h n hn).2.2]
      · rfl
    simp [Note.find_by_id_or_shortid, hs, ha, hi]

/-- The claim id `C7`.  The published-view resolution tries shortid and
then alias only; a reference matching no shortid and no alias yields
`none` whatever the store contains — shown concretely on a store holding
a note whose primary id is exactly the reference. -/
theorem published_never_primary_id (store : Store) (r : String) :
    (∀ n, Note.find_by_shortid store r = some n →
      Note.resolve_published store r = some n)
    ∧ (Note.find_by_shortid store r = none →
      Note.resolve_published store r = Note.find_by_alias store r)
    ∧ ((∀ n ∈ store, n.shortid ≠ r ∧ n.alias ≠ some r) →
      Note.resolve_published store r = none)
    ∧ Note.resolve_published [anonNote] "64b5f0a1c2d3e4f506172839" = none
    ∧ Note.find_by_id [anonNote] "64b5f0a1c2d3e4f506172839" = some anonNote := by
  refine ⟨?_, ?_, ?_, by decide, by decide⟩
  · intro n h
    simp [Note.resolve_published, h]
  · intro h
    simp [Note.resolve_published, h]
  · intro h
    have hs : Note.find_by_shortid store r = none := by
      refine List.find?_eq_none.mpr ?_
      intro n hn
      simp [(h n hn).1]
    have ha : Note.find_by_alias store r = none := by
      refine List.find?_eq_none.mpr ?_
      intro n hn
      simp [(h n hn).2]
    simp [Note.resolve_published, hs, ha]

/-- The claim id `C8`.  A note created with an absent owner gets
permission `freely` whatever permission was requested — also through the
`create_note` route — while a note created with a (truthy) owner keeps
the supplied permission. -/
theorem anonymous_note_forced_freely
    (new_id shortid title content permission : String)
    (a : Option String) (o : String) (ho : o ≠ "") :
    (Note.create new_id shortid none title content permission a).permission
      = some "freely"
    ∧ (Note.create new_id shortid (some o) title content permission a).permission
      = some permission
    ∧ (route_create_note new_id shortid none title content a).permission
      = some "freely" := by
  have ho2 : (o == "") = false := beq_eq_false_iff_ne.mpr ho
  simp [Note.create, route_create_note, route_create_permission, truthy, ho2]

/-- Witness for `anonymous_note_forced_freely`: an anonymous creation
requesting `private` still comes out `freely`; owner `alice` keeps
`private`. -/
theorem anonymous_note_forced_freely_witness :
    (Note.create "id1" "short00001" none "T" "body" "private" none).permission
      = some "freely"
    ∧ (Note.create "id1" "short00001" (some "alice") "T" "body" "private" none).permission
      = some "private"
    ∧ (route_create_note "id1" "short00001" none "T" "body" none).permission
      = some "freely" :=
  anonymous_note_forced_freely "id1" "short00001" "T" "body" "private" none
    "alice" (by decide)

/-- One entry of a user's access history, as pushed by
`User.add_to_history` in `backend/models/user.py`. -/
structure HistoryEntry where
  note_id : String
  accessed_at : Nat
deriving Repr, DecidableEq

/-- Embedding of `User.add_to_history` (user.py lines 117-145): a
`$pull` removing every entry with this `note_id`, then a `$push` with
`$position: 0` and `$slice: 100`, i.e. insert at the front and keep the
first 100 entries. -/
def User.add_to_history (history : List HistoryEntry) (note_id : String)
    (now : Nat) : List HistoryEntry :=
  (⟨note_id, now⟩ :: history.filter (fun e => e.note_id != note_id)).take 100

/-- The history a fresh user (created with `history: []`) has after a
sequence of `add_to_history` calls, each op a `(note_id, time)` pair. -/
def User.run_history (ops : List (String × Nat)) : List HistoryEntry :=
  ops.foldl (fun h op => User.add_to_history h op.1 op.2) []

theorem add_to_history_length (h : List HistoryEntry) (n : String) (t : Nat) :
    (User.add_to_history h n t).length ≤ 100 := by
  simp [User.add_to_history]

theorem add_to_history_nodup (h : List HistoryEntry) (n : String) (t : Nat)
    (hh : (h.map (fun e => e.note_id)).Nodup) :
    ((User.add_to_history h n t).map (fun e => e.note_id)).Nodup := by
  have hsub : (User.add_to_history h n t).Sublist
      (⟨n, t⟩ :: h.filter (fun e => e.note_id != n)) := by
    simpa [User.add_to_history] using
      List.take_sublist 100 (⟨n, t⟩ :: h.filter (fun e => e.note_id != n))
  refine ((hsub.map (fun e => e.note_id)).nodup ?_)
  refine List.nodup_cons.mpr ⟨?_, ?_⟩
  · intro hmem
    obtain ⟨e, he, heq⟩ := List.mem_map.mp hmem
    have := (List.mem_filter.mp he).2
    simp [heq] at this
  · exact ((List.filter_sublist h).map (fun e => e.note_id)).nodup hh

theorem add_to_history_sorted (h : List HistoryEntry) (n : String) (t : Nat)
    (hh : h.Pairwise (fun a b => b.accessed_at < a.accessed_at))
    (ht : ∀ e ∈ h, e.accessed_at < t) :
    (User.add_to_history h n t).Pairwise
      (fun a b => b.accessed_at < a.accessed_at) := by
  have hsub : (User.add_to_history h n t).Sublist
      (⟨n, t⟩ :: h.filter (fun e => e.note_id != n)) := by
    simpa [User.add_to_history] using
      List.take_sublist 100 (⟨n, t⟩ :: h.filter (fun e => e.note_id != n))
  refine List.Pairwise.sublist hsub ?_
  refine List.pairwise_cons.mpr ⟨?_, List.Pairwise.sublist (List.filter_sublist h) hh⟩
  intro e he
  exact ht e (List.mem_filter.mp he).1

theorem add_to_history_head (h : List HistoryEntry) (n : String) (t : Nat) :
    (User.add_to_history h n t).head? = some ⟨n, t⟩ := by
  unfold User.add_to_history
  rw [show (100 : Nat) = 99 + 1 from rfl, List.take_succ_cons]
  rfl

theorem add_to_history_mem (h : List HistoryEntry) (n : String) (t : Nat)
    (e : HistoryEntry) (he : e ∈ User.add_to_history h n t) :
    e = ⟨n, t⟩ ∨ e ∈ h := by
  have := (List.take_subset _ _) he
  rcases List.mem_cons.mp this with h1 | h1
  · exact Or.inl h1
  · exact Or.inr (List.mem_filter.mp h1).1

theorem run_history_invariant_aux (ops : List (String × Nat)) :
    ∀ h : List HistoryEntry,
      h.length ≤ 100 →
      (h.map (fun e => e.note_id)).Nodup →
      h.Pairwise (fun a b => b.accessed_at < a.accessed_at) →
      (∀ e ∈ h, ∀ op ∈ ops, e.accessed_at < op.2) →
      ops.Pairwise (fun a b => a.2 < b.2) →
      (ops.foldl (fun h op => User.add_to_history h op.1 op.2) h).length ≤ 100
      ∧ ((ops.foldl (fun h op => User.add_to_history h op.1 op.2) h).map
          (fun e => e.note_id)).Nodup
      ∧ (ops.foldl (fun h op => User.add_to_history h op.1 op.2) h).Pairwise
          (fun a b => b.accessed_at < a.accessed_at) := by
  induction ops with
  | nil =>
    intro h h1 h2 h3 _ _
    exact ⟨h1, h2, h3⟩
  | cons op ops ih =>
    intro h h1 h2 h3 hfut hmono
    simp only [List.foldl_cons]
    refine ih (User.add_to_history h op.1 op.2)
      (add_to_history_length h op.1 op.2)
      (add_to_history_nodup h op.1 op.2 h2)
      (add_to_history_sorted h op.1 op.2 h3
        (fun e he => hfut e he op (List.mem_cons_self op ops)))
      ?_ (List.Pairwise.sublist (List.sublist_cons_self op ops) hmono)
    intro e he op2 hop2
    rcases add_to_history_mem h op.1 op.2 e he with h4 | h4
    · have := (List.pairwise_cons.mp hmono).1 op2 hop2
      simpa [h4] using this
    · exact hfut e h4 op2 (List.mem_cons_of_mem op hop2)

/-- The claim id `C9`.  Starting from the empty history a fresh user
has, any sequence of `add_to_history` operations performed at strictly
increasing times leaves the history at most 100 entries long, with at
most one entry per note id, ordered most-recent-first, and with the most
recently added note at the front carrying its fresh timestamp. -/
theorem history_bounded_ordered_dedup (ops : List (String × Nat))
    (hmono : ops.Pairwise (fun a b => a.2 < b.2)) :
    (User.run_history ops).length ≤ 100
    ∧ ((User.run_history ops).map (fun e => e.note_id)).Nodup
    ∧ (User.run_history ops).Pairwise
        (fun a b => b.accessed_at < a.accessed_at)
    ∧ (∀ l op, ops = l ++ [op] →
        (User.run_history ops).head? = some ⟨op.1, op.2⟩) := by
  obtain ⟨p1, p2, p3⟩ := run_history_invariant_aux ops []
    (by simp) (by simp) (by simp) (by simp) hmono
  refine ⟨p1, p2, p3, ?_⟩
  intro l op hsplit
  subst hsplit
  unfold User.run_history
  rw [List.foldl_append]
  exact add_to_history_head _ op.1 op.2

/-- Witness for `history_bounded_ordered_dedup`: the note `n1` is added,
then `n2`, then `n1` again; the history ends `[n1@3, n2@2]` — `n1` moved
to the front with a fresh timestamp rather than duplicated. -/
theorem history_bounded_ordered_dedup_witness :
    (User.run_history [("n1", 1), ("n2", 2), ("n1", 3)]).length ≤ 100
    ∧ ((User.run_history [("n1", 1), ("n2", 2), ("n1", 3)]).map
        (fun e => e.note_id)).Nodup
    ∧ (User.run_history [("n1", 1), ("n2", 2), ("n1", 3)]).Pairwise
        (fun a b => b.accessed_at < a.accessed_at)
    ∧ (∀ l op, ([("n1", 1), ("n2", 2), ("n1", 3)] : List (String × Nat)) = l ++ [op] →
        (User.run_history [("n1", 1), ("n2", 2), ("n1", 3)]).head?
          = some ⟨op.1, op.2⟩) :=
  history_bounded_ordered_dedup [("n1", 1), ("n2", 2), ("n1", 3)] (by decide)

/-- The ASCII whitespace characters that both Python's `str.split` and
the `re` module's `\\s` treat as whitespace. -/
def isPySpace (c : Char) : Bool :=
  c == ' ' || c == '\t' || c == '\n' || c == '\r'
    || c == Char.ofNat 11 || c == Char.ofNat 12

/-- The backtick character. -/
def btick : Char := Char.ofNat 96

/-- One pass of `re.sub(r'^#+\\s+', '', text, flags=re.MULTILINE)`: at
each line start a maximal run of `#` followed by a maximal nonempty run
of whitespace is removed.  `fuel` bounds the recursion; each step
consumes at least one character, so `length + 1` fuel suffices. -/
def stripHeadingsAux : Nat → List Char → Bool → List Char
  | 0, cs, _ => cs
  | fuel + 1, cs, atStart =>
    match cs with
    | [] => []
    | c :: rest =>
      if atStart && c == '#' then
        let hashes := cs.takeWhile (fun x => x == '#')
        let r1 := cs.dropWhile (fun x => x == '#')
        let ws := r1.takeWhile isPySpace
        let r2 := r1.dropWhile isPySpace
        if ws.isEmpty then hashes ++ stripHeadingsAux fuel r1 false
        else stripHeadingsAux fuel r2 (ws.getLast? == some '\n')
      else c :: stripHeadingsAux fuel rest (c == '\n')

/-- One pass of `re.sub(r'\\[([^\\]]+)\\]\\([^\\)]+\\)', r'\\1', text)`:
a markdown link collapses to its visible text. -/
def stripLinksAux : Nat → List Char → List Char
  | 0, cs => cs
  | fuel + 1, cs =>
    match cs with
    | [] => []
    | '[' :: rest =>
      let txt := rest.takeWhile (fun x => x != ']')
      let r1 := rest.dropWhile (fun x => x != ']')
      match txt, r1 with
      | _ :: _, ']' :: '(' :: r2 =>
        let url := r2.takeWhile (fun x => x != ')')
        let r3 := r2.dropWhile (fun x => x != ')')
        match url, r3 with
        | _ :: _, ')' :: r4 => txt ++ stripLinksAux fuel r4
        | _, _ => '[' :: stripLinksAux fuel rest
      | _, _ => '[' :: stripLinksAux fuel rest
    | c :: rest => c :: stripLinksAux fuel rest

/-- One pass of `re.sub(r'!\\[([^\\]]*)\\]\\([^\\)]+\\)', '', text)`:
a markdown image (possibly with empty alt text) is removed. -/
def stripImagesAux : Nat → List Char → List Char
  | 0, cs => cs
  | fuel + 1, cs =>
    match cs with
    | [] => []
    | '!' :: '[' :: rest =>
      let r1 := rest.dropWhile (fun x => x != ']')
      match r1 with
      | ']' :: '(' :: r2 =>
        let url := r2.takeWhile (fun x => x != ')')
        let r3 := r2.dropWhile (fun x => x != ')')
        match url, r3 with
        | _ :: _, ')' :: r4 => stripImagesAux fuel r4
        | _, _ => '!' :: stripImagesAux fuel ('[' :: rest)
      | _ => '!' :: stripImagesAux fuel ('[' :: rest)
    | c :: rest => c :: stripImagesAux fuel rest

/-- One pass of `re.sub(r'\\*+([^\\*]+)\\*+', r'\\1', text)`: emphasis
asterisks around a star-free body are removed. -/
def stripStarsAux : Nat → List Char → List Char
  | 0, cs => cs
  | fuel + 1, cs =>
    match cs with
    | [] => []
    | '*' :: _ =>
      let stars1 := cs.takeWhile (fun x => x == '*')
      let r1 := cs.dropWhile (fun x => x == '*')
      let body := r1.takeWhile (fun x => x != '*')
      let r2 := r1.dropWhile (fun x => x != '*')
      match body, r2 with
      | _ :: _, '*' :: _ =>
        let r3 := r2.dropWhile (fun x => x == '*')
        body ++ stripStarsAux fuel r3
      | _, _ => stars1 ++ stripStarsAux fuel r1
    | c :: rest => c :: stripStarsAux fuel rest

/-- One pass of `re.sub(r'_+([^_]+)_+', r'\\1', text)`: emphasis
underscores around an underscore-free body are removed. -/
def stripUnderscoresAux : Nat → List Char → List Char
  | 0, cs => cs
  | fuel + 1, cs =>
    match cs with
    | [] => []
    | '_' :: _ =>
      let us1 := cs.takeWhile (fun x => x == '_')
      let r1 := cs.dropWhile (fun x => x == '_')
      let body := r1.takeWhile (fun x => x != '_')
      let r2 := r1.dropWhile (fun x => x != '_')
      match body, r2 with
      | _ :: _, '_' :: _ =>
        let r3 := r2.dropWhile (fun x => x == '_')
        body ++ stripUnderscoresAux fuel r3
      | _, _ => us1 ++ stripUnderscoresAux fuel r1
    | c :: rest => c :: stripUnderscoresAux fuel rest

/-- One pass of the fenced-code removal `re.sub(r'```[^`]*```', '',
text, flags=re.DOTALL)`: the leftmost-first matches of three backticks,
a backtick-free (possibly empty) body and three closing backticks are
removed. -/
def stripCodeBlocksAux : Nat → List Char → List Char
  | 0, cs => cs
  | fuel + 1, cs =>
    match cs with
    | [] => []
    | c :: rest =>
      if c == btick then
        let ticks := cs.takeWhile (fun x => x == btick)
        let r1 := cs.dropWhile (fun x => x == btick)
        if ticks.length < 3 then ticks ++ stripCodeBlocksAux fuel r1
        else if 6 ≤ ticks.length then
          stripCodeBlocksAux fuel (List.replicate (ticks.length - 6) btick ++ r1)
        else
          let body := r1.takeWhile (fun x => x != btick)
          let r2 := r1.dropWhile (fun x => x != btick)
          let ticks2 := r2.takeWhile (fun x => x == btick)
          let r3 := r2.dropWhile (fun x => x == btick)
          if 3 ≤ ticks2.length then
            List.replicate (ticks.length - 3) btick
              ++ stripCodeBlocksAux fuel
                (List.replicate (ticks2.length - 3) btick ++ r3)
          else ticks ++ body ++ stripCodeBlocksAux fuel r2
      else c :: stripCodeBlocksAux fuel rest

/-- One pass of the inline-code removal `re.sub(r'`[^`]+`', '', text)`. -/
def stripInlineCodeAux : Nat → List Char → List Char
  | 0, cs => cs
  | fuel + 1, cs =>
    match cs with
    | [] => []
    | c :: rest =>
      if c == btick then
        let ticks := cs.takeWhile (fun x => x == btick)
        let r1 := cs.dropWhile (fun x => x == btick)
        let body := r1.takeWhile (fun x => x != btick)
        let r2 := r1.dropWhile (fun x => x != btick)
        match body, r2 with
        | _ :: _, _ :: r3 =>
          List.replicate (ticks.length - 1) btick ++ stripInlineCodeAux fuel r3
        | _, _ => ticks ++ body ++ stripInlineCodeAux fuel r2
      else c :: stripInlineCodeAux fuel rest

/-- Python `' '.join(text.split())`: whitespace runs collapse to single
spaces and surrounding whitespace disappears. -/
def collapseWs (cs : List Char) : List Char :=
  List.intercalate [' '] ((cs.splitOnP isPySpace).filter (fun w => !w.isEmpty))

/-- The markdown-stripped, whitespace-collapsed text of
`Note.generate_description` (note.py lines 260-280), before
truncation: the seven regex substitutions applied in source order, then
the whitespace collapse. -/
def descriptionChars (content : String) : List Char :=
  let t0 := content.toList
  let t1 := stripHeadingsAux (t0.length + 1) t0 true
  let t2 := stripLinksAux (t1.length + 1) t1
  let t3 := stripImagesAux (t2.length + 1) t2
  let t4 := stripStarsAux (t3.length + 1) t3
  let t5 := stripUnderscoresAux (t4.length + 1) t4
  let t6 := stripCodeBlocksAux (t5.length + 1) t5
  let t7 := stripInlineCodeAux (t6.length + 1) t6
  collapseWs t7

/-- Python `text[:max_length].rsplit(' ', 1)[0]`: everything before the
last space, or the whole list when it holds no space. -/
def rsplitSpaceFirst (cs : List Char) : List Char :=
  match cs.reverse.dropWhile (fun c => c != ' ') with
  | [] => cs
  | _ :: t => t.reverse

/-- The truncation step of `Note.generate_description` (note.py lines
282-283). -/
def truncateDescription (t : List Char) (max_length : Nat) : List Char :=
  if max_length < t.length then
    rsplitSpaceFirst (t.take max_length) ++ ['.', '.', '.']
  else t

/-- Embedding of `Note.generate_description(content, max_length)`. -/
def Note.generate_description (content : String) (max_length : Nat) : String :=
  String.mk (truncateDescription (descriptionChars content) max_length)

theorem dropWhile_head_false {q : Char → Bool} :
    ∀ (l : List Char) (c : Char) (cs : List Char),
      l.dropWhile q = c :: cs → q c = false := by
  intro l
  induction l with
  | nil => intro c cs h; simp [List.dropWhile] at h
  | cons a l ih =>
    intro c cs h
    rw [List.dropWhile_cons] at h
    split at h
    · exact ih c cs h
    · cases h
      simp_all

theorem rsplitSpaceFirst_spec (p : List Char) (hmem : ' ' ∈ p) :
    ∃ i, i < p.length ∧ rsplitSpaceFirst p = p.take i
      ∧ p[i]? = some ' '
      ∧ ∀ j, i < j → j < p.length → p[j]? ≠ some ' ' := by
  have hrwd : p.reverse.takeWhile (fun c => c != ' ')
      ++ p.reverse.dropWhile (fun c => c != ' ') = p.reverse :=
    List.takeWhile_append_dropWhile (fun c => c != ' ') p.reverse
  cases hdc : p.reverse.dropWhile (fun c => c != ' ') with
  | nil =>
    exfalso
    have hm : ' ' ∈ p.reverse := List.mem_reverse.mpr hmem
    rw [← hrwd, hdc, List.append_nil] at hm
    have := List.mem_takeWhile_imp hm
    simp at this
  | cons d0 dt =>
    have hd0 : (d0 != ' ') = false := dropWhile_head_false _ d0 dt hdc
    have hd0e : d0 = ' ' := by simpa using hd0
    subst hd0e
    rw [hdc] at hrwd
    have hp : p = dt.reverse
        ++ ' ' :: (p.reverse.takeWhile (fun c => c != ' ')).reverse := by
      conv_lhs => rw [← List.reverse_reverse p, ← hrwd]
      simp
    refine ⟨dt.reverse.length, ?_, ?_, ?_, ?_⟩
    · conv_rhs => rw [hp]
      simp
    · unfold rsplitSpaceFirst
      rw [hdc]
      conv_rhs => rw [hp]
      rw [List.take_left]
    · conv_lhs => rw [hp]
      rw [List.getElem?_append_right (le_refl _)]
      simp
    · intro j hij hjlen
      conv_lhs => rw [hp]
      rw [List.getElem?_append_right (le_of_lt hij)]
      obtain ⟨k, hk⟩ : ∃ k, j - dt.reverse.length = k + 1 :=
        ⟨j - dt.reverse.length - 1, by omega⟩
      rw [hk]
      simp only [List.getElem?_cons_succ]
      intro hcontra
      have hmem2 : ' ' ∈ (p.reverse.takeWhile (fun c => c != ' ')).reverse :=
        List.getElem?_mem hcontra
      rw [List.mem_reverse] at hmem2
      have := List.mem_takeWhile_imp hmem2
      simp at this

/-- The claim id `C5`, amended.  If the stripped, collapsed text exceeds
200 characters, the result is its first at-most-200 characters cut at
the last whitespace boundary before the limit — provided the first 200
characters contain a space; when they contain none the cut falls at
exactly 200 characters, mid-word — followed by an ellipsis; text of at
most 200 characters is returned unchanged with no ellipsis. -/
theorem description_truncation (content : String) :
    ((descriptionChars content).length ≤ 200 →
      Note.generate_description content 200
        = String.mk (descriptionChars content))
    ∧ (200 < (descriptionChars content).length →
      ' ' ∈ (descriptionChars content).take 200 →
      ∃ i, i < 200
        ∧ Note.generate_description content 200
          = String.mk ((descriptionChars content).take i ++ ['.', '.', '.'])
        ∧ (descriptionChars content)[i]? = some ' '
        ∧ ∀ j, i < j → j < 200 → (descriptionChars content)[j]? ≠ some ' ')
    ∧ (200 < (descriptionChars content).length →
      ¬ ' ' ∈ (descriptionChars content).take 200 →
      Note.generate_description content 200
        = String.mk ((descriptionChars content).take 200 ++ ['.', '.', '.'])) := by
  refine ⟨?_, ?_, ?_⟩
  · intro h
    simp [Note.generate_description, truncateDescription, Nat.not_lt.mpr h]
  · intro h200 hsp
    obtain ⟨i, hilen, heq, hget, hmax⟩ :=
      rsplitSpaceFirst_spec ((descriptionChars content).take 200) hsp
    have hlen200 : ((descriptionChars content).take 200).length = 200 := by
      simp [List.length_take]
      omega
    rw [hlen200] at hilen
    have htt : ((descriptionChars content).take 200).take i
        = (descriptionChars content).take i := by
      rw [List.take_take]
      congr 1
      omega
    refine ⟨i, hilen, ?_, ?_, ?_⟩
    · simp only [Note.generate_description, truncateDescription, if_pos h200,
        heq, htt]
    · have h2 := hget
      rw [List.getElem?_take, if_pos hilen] at h2
      exact h2
    · intro j hij hj200
      have hj2 : j < (List.take 200 (descriptionChars content)).length := by
        rw [hlen200]
        exact hj200
      intro hc
      refine hmax j hij hj2 ?_
      rw [List.getElem?_take, if_pos hj200]
      exact hc
  · intro h200 hnsp
    have hfix : rsplitSpaceFirst ((descriptionChars content).take 200)
        = (descriptionChars content).take 200 := by
      unfold rsplitSpaceFirst
      have hdw : ((descriptionChars content).take 200).reverse.dropWhile
          (fun c => c != ' ') = [] := by
        rw [List.dropWhile_eq_nil_iff]
        intro c hc
        have hc2 : c ∈ (descriptionChars content).take 200 :=
          List.mem_reverse.mp hc
        have : c ≠ ' ' := fun h => hnsp (h ▸ hc2)
        simpa using this
      rw [hdw]
    simp only [Note.generate_description, truncateDescription, if_pos h200, hfix]

set_option maxRecDepth 4000 in
/-- Counterexample to the claim id `C5` as stated: on a single 201
character word the stripped text exceeds the limit yet the cut falls
mid-word at exactly 200 characters — there is no whitespace boundary for
it to fall on. -/
theorem truncation_midword_counterexample :
    200 < (descriptionChars (String.mk (List.replicate 201 'a'))).length
    ∧ Note.generate_description (String.mk (List.replicate 201 'a')) 200
      = String.mk (List.replicate 200 'a' ++ ['.', '.', '.'])
    ∧ (descriptionChars (String.mk (List.replicate 201 'a')))[200]? = some 'a' := by
  refine ⟨by decide, by decide, by decide⟩

/-- An HTML token as the sanitizer's tokenizer produces it. -/
inductive HtmlToken where
  | text (s : String)
  | startTag (tagname : String) (attrs : List (String × String))
  | endTag (tagname : String)
  | comment (s : String)
deriving Repr, DecidableEq

/-- The single-quote character. -/
def squote : Char := Char.ofNat 39

def isAsciiLetter (c : Char) : Bool :=
  ('a' ≤ c && c ≤ 'z') || ('A' ≤ c && c ≤ 'Z')

def isAsciiAlnum (c : Char) : Bool :=
  isAsciiLetter c || c.isDigit

/-- Attribute parsing inside a tag, html5-style: names are lowercased,
values may be double-quoted, single-quoted, or unquoted, and a bare name
gets the empty value.  `fuel` bounds the recursion; each step consumes at
least one character. -/
def parseAttrs : Nat → List Char → List (String × String)
  | 0, _ => []
  | fuel + 1, cs =>
    match cs with
    | [] => []
    | c :: rest =>
      if c.isWhitespace || c == '/' then parseAttrs fuel rest
      else
        let nameCs := cs.takeWhile (fun x => !(x.isWhitespace || x == '=' || x == '/'))
        let r1 := cs.dropWhile (fun x => !(x.isWhitespace || x == '=' || x == '/'))
        let aname := String.mk (nameCs.map Char.toLower)
        match r1 with
        | '=' :: r2 =>
          match r2 with
          | q :: r3 =>
            if q == '"' || q == squote then
              let v := r3.takeWhile (fun x => x != q)
              let r4 := (r3.dropWhile (fun x => x != q)).drop 1
              (aname, String.mk v) :: parseAttrs fuel r4
            else
              let v := r2.takeWhile (fun x => !x.isWhitespace)
              let r4 := r2.dropWhile (fun x => !x.isWhitespace)
              (aname, String.mk v) :: parseAttrs fuel r4
          | [] => [(aname, "")]
        | _ => (aname, "") :: parseAttrs fuel r1

/-- Splits a comment body at the closing `-->`; an unterminated comment
runs to the end of input. -/
def splitAtCommentEnd : List Char → (List Char × List Char)
  | [] => ([], [])
  | '-' :: '-' :: '>' :: r => ([], r)
  | c :: r =>
    let p := splitAtCommentEnd r
    (c :: p.1, p.2)

/-- Prepends the accumulated text (if nonempty) as a text token. -/
def flushText (acc : List Char) (ts : List HtmlToken) : List HtmlToken :=
  if acc.isEmpty then ts else .text (String.mk acc) :: ts

/-- The HTML tokenizer bleach runs the input through: text, start tags
with attributes (names lowercased), end tags and comments.  A `<` not
opening a tag is text; an unterminated tag at end of input is kept as
text.  `fuel` bounds the recursion; each step consumes at least one
character. -/
def tokenizeAux : Nat → List Char → List Char → List HtmlToken
  | 0, cs, acc => flushText (acc ++ cs) []
  | fuel + 1, cs, acc =>
    match cs with
    | [] => flushText acc []
    | '<' :: rest =>
      if rest.take 3 = ['!', '-', '-'] then
        let p := splitAtCommentEnd (rest.drop 3)
        flushText acc (.comment (String.mk p.1) :: tokenizeAux fuel p.2 [])
      else
        match rest with
        | '/' :: r2 =>
          if (r2.take 1).all isAsciiLetter && !r2.isEmpty then
            let chunk := r2.takeWhile (fun x => x != '>')
            let r3 := r2.dropWhile (fun x => x != '>')
            match r3 with
            | _ :: r4 =>
              let nm := String.mk ((chunk.takeWhile isAsciiAlnum).map Char.toLower)
              flushText acc (.endTag nm :: tokenizeAux fuel r4 [])
            | [] => flushText (acc ++ cs) []
          else tokenizeAux fuel rest (acc ++ ['<'])
        | c2 :: _ =>
          if isAsciiLetter c2 then
            let chunk := rest.takeWhile (fun x => x != '>')
            let r3 := rest.dropWhile (fun x => x != '>')
            match r3 with
            | _ :: r4 =>
              let nm := String.mk ((chunk.takeWhile isAsciiAlnum).map Char.toLower)
              let attrSrc := chunk.dropWhile isAsciiAlnum
              flushText acc (.startTag nm (parseAttrs (attrSrc.length + 1) attrSrc)
                :: tokenizeAux fuel r4 [])
            | [] => flushText (acc ++ cs) []
          else tokenizeAux fuel rest (acc ++ ['<'])
        | [] => tokenizeAux fuel rest (acc ++ ['<'])
    | c :: rest => tokenizeAux fuel rest (acc ++ [c])

/-- The tag allow-list `render_html` passes to `bleach.clean` (note.py
lines 242-247): `bleach.ALLOWED_TAGS` united with the listed extras. -/
def bleach_allowed_tags : List String :=
  ["a", "abbr", "acronym", "b", "blockquote", "code", "em", "i", "li",
   "ol", "strong", "ul",
   "p", "pre", "h1", "h2", "h3", "h4", "h5", "h6",
   "table", "thead", "tbody", "tr", "th", "td",
   "hr", "br", "img", "div", "span"]

/-- The attribute allow-list `render_html` passes to `bleach.clean`
(note.py lines 248-256): `bleach.ALLOWED_ATTRIBUTES` (a/abbr/acronym)
overridden and extended per tag; every other tag allows no attribute. -/
def bleach_allowed_attrs (tag : String) : List String :=
  if tag == "a" then ["href", "title", "target"]
  else if tag == "abbr" then ["title"]
  else if tag == "acronym" then ["title"]
  else if tag == "img" then ["src", "alt", "title"]
  else if tag == "code" then ["class"]
  else if tag == "pre" then ["class"]
  else if tag == "div" then ["class"]
  else if tag == "span" then ["class"]
  else []

/-- The source text a disallowed start tag is re-serialized to before
being entity-escaped (bleach with its default `strip=False` escapes
disallowed tags instead of stripping them). -/
def rawStartTagText (tagname : String) (attrs : List (String × String)) : String :=
  "<" ++ tagname
    ++ String.join (attrs.map (fun a => " " ++ a.1 ++ "=\"" ++ a.2 ++ "\""))
    ++ ">"

/-- The source text a disallowed end tag is re-serialized to. -/
def rawEndTagText (tagname : String) : String :=
  "</" ++ tagname ++ ">"

/-- The token-level core of `bleach.clean` as `render_html` calls it
(`strip=False`, `strip_comments=True`): comments are dropped, allowed
tags keep only their allowed attributes, disallowed tags become text (to
be entity-escaped on serialization), character data passes through. -/
def bleachFilter : List HtmlToken → List HtmlToken
  | [] => []
  | t :: ts =>
    match t with
    | .text s => .text s :: bleachFilter ts
    | .comment _ => bleachFilter ts
    | .startTag nm attrs =>
      if bleach_allowed_tags.contains nm then
        .startTag nm (attrs.filter (fun a => (bleach_allowed_attrs nm).contains a.1))
          :: bleachFilter ts
      else .text (rawStartTagText nm attrs) :: bleachFilter ts
    | .endTag nm =>
      if bleach_allowed_tags.contains nm then .endTag nm :: bleachFilter ts
      else .text (rawEndTagText nm) :: bleachFilter ts

/-- Text escaping of the serializer: `&`, `<` and `>` become entities. -/
def escapeHtmlText (s : String) : String :=
  String.join (s.toList.map (fun c =>
    if c == '&' then "&amp;"
    else if c == '<' then "&lt;"
    else if c == '>' then "&gt;"
    else String.mk [c]))

/-- Attribute-value escaping of the serializer. -/
def escapeAttrValue (s : String) : String :=
  String.join (s.toList.map (fun c =>
    if c == '&' then "&amp;"
    else if c == '"' then "&quot;"
    else if c == '<' then "&lt;"
    else if c == '>' then "&gt;"
    else String.mk [c]))

/-- Serialization of one filtered token back to HTML text. -/
def serializeToken : HtmlToken → String
  | .text s => escapeHtmlText s
  | .startTag nm attrs =>
    "<" ++ nm
      ++ String.join (attrs.map (fun a =>
        " " ++ a.1 ++ "=\"" ++ escapeAttrValue a.2 ++ "\""))
      ++ ">"
  | .endTag nm => "</" ++ nm ++ ">"
  | .comment _ => ""

def tokenizeHtml (s : String) : List HtmlToken :=
  tokenizeAux (s.length + 1) s.toList []

/-- The `bleach.clean` call of `render_html` (note.py line 258):
tokenize, filter, re-serialize. -/
def bleach_clean (html : String) : String :=
  String.join ((bleachFilter (tokenizeHtml html)).map serializeToken)

/-- Block-level element names of Python-Markdown: a raw HTML block
starting with one of these passes through unwrapped, anything else is
wrapped in a paragraph. -/
def md_block_level : List String :=
  ["address", "article", "aside", "blockquote", "body", "canvas",
   "colgroup", "dd", "details", "div", "dl", "dt", "fieldset",
   "figcaption", "figure", "footer", "form", "h1", "h2", "h3", "h4",
   "h5", "h6", "header", "hgroup", "hr", "html", "iframe", "legend",
   "li", "main", "map", "math", "menu", "nav", "noscript", "object",
   "ol", "option", "output", "p", "pre", "progress", "script",
   "section", "style", "summary", "table", "tbody", "td", "textarea",
   "tfoot", "th", "thead", "tr", "ul", "video"]

/-- Surrounding-whitespace removal on the character list (the model of
the input normalization `markdown.markdown` performs). -/
def trimChars (cs : List Char) : List Char :=
  ((cs.dropWhile Char.isWhitespace).reverse.dropWhile Char.isWhitespace).reverse

/-- Model of `markdown.markdown(content, extensions=[...])` for a
single-block input, which is all the renderer claims exercise: raw HTML
whose leading tag is block-level (as `script` is) passes through
verbatim, while inline content — raw inline HTML such as `img`
included — is wrapped in a `p` element.  The sanitizer downstream
guarantees the safety properties whatever this produces. -/
def md_markdown (content : String) : String :=
  let t := String.mk (trimChars content.toList)
  if t == "" then ""
  else
    match t.toList with
    | '<' :: rest =>
      let nm := String.mk ((rest.takeWhile isAsciiAlnum).map Char.toLower)
      if md_block_level.contains nm then t else "<p>" ++ t ++ "</p>"
    | _ => "<p>" ++ t ++ "</p>"

/-- Embedding of `Note.render_html` (note.py lines 229-258): markdown
expansion followed by the bleach sanitization. -/
def Note.render_html (content : String) : String :=
  bleach_clean (md_markdown content)

/-- The sanitized token stream `render_html` serializes. -/
def renderTokens (content : String) : List HtmlToken :=
  bleachFilter (tokenizeHtml (md_markdown content))

def HtmlToken.isTagNamed (nm : String) : HtmlToken → Bool
  | .startTag n _ => n == nm
  | .endTag n => n == nm
  | _ => false

def HtmlToken.attrNames : HtmlToken → List String
  | .startTag _ attrs => attrs.map (fun a => a.1)
  | _ => []

/-- An inline event-handler attribute name: one beginning with `on`
(`onerror`, `onclick`, ...). -/
def isEventHandlerName (a : String) : Bool :=
  a.toList.take 2 == ['o', 'n']

theorem bleachFilter_mem (ts : List HtmlToken) (t : HtmlToken) :
    t ∈ bleachFilter ts →
    match t with
    | .startTag nm attrs => nm ∈ bleach_allowed_tags
        ∧ ∀ a ∈ attrs, a.1 ∈ bleach_allowed_attrs nm
    | .endTag nm => nm ∈ bleach_allowed_tags
    | .text _ => True
    | .comment _ => True := by
  induction ts with
  | nil =>
    intro ht
    simp [bleachFilter] at ht
  | cons u ts ih =>
    intro ht
    cases u with
    | text s0 =>
      simp only [bleachFilter, List.mem_cons] at ht
      rcases ht with h | h
      · subst h
        trivial
      · exact ih h
    | comment s0 =>
      simp only [bleachFilter] at ht
      exact ih ht
    | startTag nm attrs =>
      by_cases hal : nm ∈ bleach_allowed_tags
      · simp [bleachFilter, hal] at ht
        rcases ht with h | h
        · subst h
          refine ⟨hal, ?_⟩
          intro a ha
          have := List.of_mem_filter ha
          simpa using this
        · exact ih h
      · simp [bleachFilter, hal] at ht
        rcases ht with h | h
        · subst h
          trivial
        · exact ih h
    | endTag nm =>
      by_cases hal : nm ∈ bleach_allowed_tags
      · simp [bleachFilter, hal] at ht
        rcases ht with h | h
        · subst h
          exact hal
        · exact ih h
      · simp [bleachFilter, hal] at ht
        rcases ht with h | h
        · subst h
          trivial
        · exact ih h

theorem allowed_attrs_subset (nm a : String)
    (h : a ∈ bleach_allowed_attrs nm) :
    a ∈ ["href", "title", "target", "src", "alt", "class"] := by
  unfold bleach_allowed_attrs at h
  split_ifs at h <;> simp_all <;> tauto

theorem mem_big_not_handler (a : String)
    (h : a ∈ ["href", "title", "target", "src", "alt", "class"]) :
    isEventHandlerName a = false := by
  fin_cases h <;> decide

/-- The claim id `C3`.  Every token `render_html` emits is either text
or an allow-listed tag carrying only allow-listed attributes, so the
output holds no script tag and no `on*` event-handler attribute for any
input; on the adversarial inputs the script tag is neutralized into
escaped text and the img tag survives with `onerror` removed. -/
theorem render_sanitized (content : String) :
    (∀ t ∈ renderTokens content, t.isTagNamed "script" = false)
    ∧ (∀ t ∈ renderTokens content, ∀ a ∈ t.attrNames, isEventHandlerName a = false)
    ∧ Note.render_html "<script>alert(1)</script>"
      = "&lt;script&gt;alert(1)&lt;/script&gt;"
    ∧ Note.render_html "<img src=x onerror=alert(1)>" = "<p><img src=\"x\"></p>"
    ∧ renderTokens "<img src=x onerror=alert(1)>"
      = [.startTag "p" [], .startTag "img" [("src", "x")], .endTag "p"] := by
  refine ⟨?_, ?_, by decide, by decide, by decide⟩
  · intro t ht
    have h := bleachFilter_mem _ t ht
    cases t with
    | text s => rfl
    | comment s => rfl
    | startTag nm attrs =>
      simp only [HtmlToken.isTagNamed]
      cases hEq : nm == "script" with
      | false => rfl
      | true =>
        exfalso
        have hs : nm = "script" := eq_of_beq hEq
        subst hs
        exact absurd h.1 (by decide)
    | endTag nm =>
      simp only [HtmlToken.isTagNamed]
      cases hEq : nm == "script" with
      | false => rfl
      | true =>
        exfalso
        have hs : nm = "script" := eq_of_beq hEq
        subst hs
        exact absurd h (by decide)
  · intro t ht a ha
    have h := bleachFilter_mem _ t ht
    cases t with
    | text s => simp [HtmlToken.attrNames] at ha
    | comment s => simp [HtmlToken.attrNames] at ha
    | endTag nm => simp [HtmlToken.attrNames] at ha
    | startTag nm attrs =>
      simp only [HtmlToken.attrNames] at ha
      obtain ⟨p, hp, rfl⟩ := List.mem_map.mp ha
      exact mem_big_not_handler _ (allowed_attrs_subset nm _ (h.2 p hp))

/-- Counterexample to the claim id `C4` as stated: a tag outside the
allow-list is NOT stripped with its inner text retained — bleach's
default `strip=False` entity-escapes it instead, so the escaped tag
text survives in the output. -/
theorem strip_vs_escape_counterexample :
    Note.render_html "<blink>hi</blink>" = "<p>&lt;blink&gt;hi&lt;/blink&gt;</p>"
    ∧ Note.render_html "<blink>hi</blink>" ≠ "<p>hi</p>" :=
  ⟨by decide, by decide⟩

/-- The claim id `C4`, amended.  A tag outside the allow-list is escaped
into entity-encoded text — not stripped — while its inner text is
retained; attributes outside the allow-list are stripped from allowed
tags. -/
theorem disallowed_tags_escaped (nm nm2 : String)
    (attrs : List (String × String)) (ts : List HtmlToken) (s : String)
    (hnm : nm ∉ bleach_allowed_tags)
    (hnm2 : nm2 ∈ bleach_allowed_tags) :
    bleachFilter (.startTag nm attrs :: ts)
      = .text (rawStartTagText nm attrs) :: bleachFilter ts
    ∧ bleachFilter (.endTag nm :: ts)
      = .text (rawEndTagText nm) :: bleachFilter ts
    ∧ bleachFilter (.text s :: ts) = .text s :: bleachFilter ts
    ∧ bleachFilter (.startTag nm2 attrs :: ts)
      = .startTag nm2
          (attrs.filter (fun a => (bleach_allowed_attrs nm2).contains a.1))
        :: bleachFilter ts
    ∧ Note.render_html "<blink>hi</blink>"
      = "<p>&lt;blink&gt;hi&lt;/blink&gt;</p>" := by
  refine ⟨?_, ?_, rfl, ?_, by decide⟩
  · simp [bleachFilter, hnm]
  · simp [bleachFilter, hnm]
  · simp [bleachFilter, hnm2]

/-- Witness for `disallowed_tags_escaped`: the disallowed tag `blink`
with one attribute, and the allowed tag `img`. -/
theorem disallowed_tags_escaped_witness :
    bleachFilter (.startTag "blink" [("x", "y")] :: [])
      = .text (rawStartTagText "blink" [("x", "y")]) :: bleachFilter []
    ∧ bleachFilter (.endTag "blink" :: [])
      = .text (rawEndTagText "blink") :: bleachFilter []
    ∧ bleachFilter (.text "hi" :: []) = .text "hi" :: bleachFilter []
    ∧ bleachFilter (.startTag "img" [("x", "y")] :: [])
      = .startTag "img"
          ([("x", "y")].filter (fun a => (bleach_allowed_attrs "img").contains a.1))
        :: bleachFilter []
    ∧ Note.render_html "<blink>hi</blink>"
      = "<p>&lt;blink&gt;hi&lt;/blink&gt;</p>" :=
  disallowed_tags_escaped "blink" "img" [("x", "y")] [] "hi"
    (by decide) (by decide)

end Mowndark
